import Mathlib

/-!
Shallow embedding of the MTG deck-assistant core:
the relevance scorer (`collectionFilter`: `filterCollectionByNeeds`, `scoreCard`),
the availability computation (`AIAnalyzer.getAvailableCards`,
`CollectionManager.getCardUsage`), and the Manabox deck-list parser
(`ManaboxParser.parseTXT`, `parseCSV`, `parseCardLine`).

JavaScript strings are modelled as Lean `String` / `List Char`; JS
`toLowerCase` as ASCII `Char.toLower`; JS `String.prototype.includes` as
substring containment; JS numbers holding card quantities / scores as
`Int` / `Nat` (every arithmetic operation in the modelled code is integer
valued); absent (`undefined`) fields as `Option`.
-/

namespace Mtg

/-- JS `\s` whitespace class, restricted to the ASCII control/space range
(the Unicode space class of JS is not exercised by any modelled input). -/
def wsChar (c : Char) : Bool :=
  c == ' ' || c == '\t' || c == '\n' || c == '\r' || c == '\x0b' || c == '\x0c'

/-- Drop `wsChar` characters from both ends of a character list
(JS `String.prototype.trim`). -/
def trimWs (l : List Char) : List Char :=
  ((l.dropWhile wsChar).reverse.dropWhile wsChar).reverse

/-- JS `s.trim()`. -/
def jsTrim (s : String) : String :=
  String.mk (trimWs s.toList)

/-- JS `s.toLowerCase()` (ASCII). -/
def lowerStr (s : String) : String :=
  String.mk (s.toList.map Char.toLower)

/-- JS `hay.includes(needle)`: `needle` occurs as a contiguous substring. -/
def containsSub (hay needle : String) : Bool :=
  hay.toList.tails.any (fun t => needle.toList.isPrefixOf t)

/-- JS `s.startsWith(pre)`. -/
def jsStartsWith (s pre : String) : Bool :=
  pre.toList.isPrefixOf s.toList

/-- JS `text.split('\n')` on the character list: adjacent separators and
separators at either end produce empty pieces, exactly as in JS. -/
def splitNl (l : List Char) : List (List Char) :=
  l.foldr (fun c acc =>
    if c == '\n' then [] :: acc
    else
      match acc with
      | [] => [[c]]
      | h :: t => (c :: h) :: t) [[]]

/-- Numeric value of a (base-10) digit run, the value JS `parseInt`
returns on a string of digits. -/
def natOfDigits (ds : List Char) : Nat :=
  ds.foldl (fun acc c => 10 * acc + (c.toNat - '0'.toNat)) 0

/-- JS `parseInt(s)` (radix 10): skip leading whitespace, optional sign,
then a digit run; `none` models `NaN`.  (The hexadecimal `0x` prefix JS
also accepts is not modelled: the quantity cells fed to `parseInt` in this
code base are decimal.) -/
def jsParseInt (s : String) : Option Int :=
  let digitsVal : List Char → Option Int := fun r =>
    let ds := r.takeWhile Char.isDigit
    if ds.isEmpty then none else some (natOfDigits ds : Int)
  match s.toList.dropWhile wsChar with
  | '-' :: r => (digitsVal r).map (fun v => -v)
  | '+' :: r => digitsVal r
  | r => digitsVal r

/-! ## Data model of the relevance scorer (src/unnamed/part_004) -/

/-- A collection card as consumed by `scoreCard`: exactly the fields the
scorer reads, each optional because the JS code guards every access with
`|| ''`, `|| []`, `?.` or `|| 0`. -/
structure Card where
  name : Option String
  oracleText : Option String
  type : Option String
  keywords : Option (List String)
  power : Option String
  cmc : Option Int
deriving DecidableEq, Repr

/-- A card of the target deck; the scorer reads only `name`
(`deckCards.map(c => c.name.toLowerCase())`). -/
structure DeckCard where
  name : String
deriving DecidableEq, Repr

/-- The need specification produced by the analysis step.  Every field is
optional in JS; booleans model the truthiness test on a possibly-absent
flag (absent ≡ `false`), list/string/number fields are `Option`. -/
structure Needs where
  synergyOracleTerms : Option (List String) := none
  wantedKeywords : Option (List String) := none
  wantedCreatureTypes : Option (List String) := none
  additionalOracleTerms : Option (List String) := none
  needsRemoval : Bool := false
  needsRamp : Bool := false
  needsCardDraw : Bool := false
  needsBoardWipes : Bool := false
  needsCounterspells : Bool := false
  needsProtection : Bool := false
  needsGraveyard : Bool := false
  needsTokens : Bool := false
  needsTutor : Bool := false
  needsLandFetch : Bool := false
  wantBigCreatures : Bool := false
  minPower : Option Int := none
  cmcCurveNote : Option String := none
deriving DecidableEq, Repr

/-- JS truthiness of a possibly-absent number (`needs.minPower`):
`undefined` and `0` are falsy. -/
def jsNumTruthy (o : Option Int) : Bool :=
  match o with
  | none => false
  | some v => !(v == 0)

/-- `removalTerms` of `scoreCard`. -/
def removalTerms : List String :=
  ["destroy target", "exile target", "return target", "-x/-x", "deals damage to target"]

/-- `rampTerms` of `scoreCard`.  (`add \x7b` is the literal JS string
`'add {'`.) -/
def rampTerms : List String :=
  ["add \x7b", "search your library for a", "land", "mana", "tap: add"]

/-- `drawTerms` of `scoreCard`. -/
def drawTerms : List String :=
  ["draw a card", "draw two", "draw three", "draw cards", "draws a card"]

/-- `wipeTerms` of `scoreCard`. -/
def wipeTerms : List String :=
  ["destroy all", "exile all", "each creature gets", "all creatures"]

/-- `protectTerms` of `scoreCard`. -/
def protectTerms : List String :=
  ["hexproof", "indestructible", "protection from", "shroud", "regenerate"]

/-- `graveTerms` of `scoreCard`. -/
def graveTerms : List String :=
  ["graveyard", "return from", "from your graveyard", "dies", "when ~ dies"]

/-- `scoreCard(card, needs)` from src/unnamed/part_004 lines 35-185: the
sequential `score += k` accumulations are written as one sum of the
per-signal contributions, in source order.  A `forEach` adding `k` per
matching list element is `k * countP`; a `some(...)` test adding `k` once
is a flat `if`. -/
def scoreCard (card : Card) (needs : Needs) : Nat :=
  let nameLower := lowerStr (card.name.getD "")
  let oracleLower := lowerStr (card.oracleText.getD "")
  let typeLower := lowerStr (card.type.getD "")
  let keywordsLower := (card.keywords.getD []).map lowerStr
  -- synergy oracle terms: +15 per term found in oracle text or name
  let synergyPts :=
    match needs.synergyOracleTerms with
    | some terms => 15 * terms.countP (fun term =>
        containsSub oracleLower (lowerStr term) || containsSub nameLower (lowerStr term))
    | none => 0
  -- wanted keywords: +10 per keyword present in the card's keyword list
  let keywordPts :=
    match needs.wantedKeywords with
    | some kws => 10 * kws.countP (fun k => keywordsLower.contains (lowerStr k))
    | none => 0
  -- wanted creature types: +12 per type token found in the type line
  let creaturePts :=
    match needs.wantedCreatureTypes with
    | some tys => 12 * tys.countP (fun t => containsSub typeLower (lowerStr t))
    | none => 0
  -- additional oracle terms: +8 per term found in oracle text
  let additionalPts :=
    match needs.additionalOracleTerms with
    | some terms => 8 * terms.countP (fun t => containsSub oracleLower (lowerStr t))
    | none => 0
  -- removal role: flat +12
  let removalPts :=
    if needs.needsRemoval && removalTerms.any (fun t => containsSub oracleLower t)
    then 12 else 0
  -- ramp role: flat +10 for ramp text on artifact/creature/enchantment,
  -- plus flat +12 for an artifact with a tap-for-mana pattern
  let rampPts :=
    (if needs.needsRamp && rampTerms.any (fun t => containsSub oracleLower t) &&
        (containsSub typeLower "artifact" || containsSub typeLower "creature" ||
         containsSub typeLower "enchantment")
     then 10 else 0) +
    (if needs.needsRamp && containsSub typeLower "artifact" &&
        containsSub oracleLower "\x7bt\x7d: add"
     then 12 else 0)
  -- card draw role: flat +12
  let drawPts :=
    if needs.needsCardDraw && drawTerms.any (fun t => containsSub oracleLower t)
    then 12 else 0
  -- board wipe role: flat +15
  let wipePts :=
    if needs.needsBoardWipes && wipeTerms.any (fun t => containsSub oracleLower t)
    then 15 else 0
  -- counterspell role: flat +15
  let counterPts :=
    if needs.needsCounterspells &&
       (containsSub oracleLower "counter target spell" ||
        containsSub oracleLower "counter target creature")
    then 15 else 0
  -- protection role: flat +10 (oracle text or keyword list)
  let protectPts :=
    if needs.needsProtection && protectTerms.any (fun t =>
         containsSub oracleLower t || keywordsLower.contains t)
    then 10 else 0
  -- graveyard role: flat +10
  let gravePts :=
    if needs.needsGraveyard && graveTerms.any (fun t => containsSub oracleLower t)
    then 10 else 0
  -- tokens role: flat +12
  let tokenPts :=
    if needs.needsTokens && containsSub oracleLower "create" && containsSub oracleLower "token"
    then 12 else 0
  -- tutor role: flat +15
  let tutorPts :=
    if needs.needsTutor && containsSub oracleLower "search your library" &&
       containsSub oracleLower "put it into your hand"
    then 15 else 0
  -- land fetch role: flat +12
  let landFetchPts :=
    if needs.needsLandFetch && containsSub oracleLower "search your library for a" &&
       containsSub oracleLower "land"
    then 12 else 0
  -- big creatures: flat +8 when parseInt(card.power) is a number ≥ minPower
  let bigPts :=
    if needs.wantBigCreatures && jsNumTruthy needs.minPower then
      match (match card.power with | some p => jsParseInt p | none => none) with
      | some pw => if needs.minPower.getD 0 ≤ pw then 8 else 0
      | none => 0
    else 0
  -- CMC curve bonus: +5 on each of the two (disjoint) curve branches
  let cmcNote := lowerStr (needs.cmcCurveNote.getD "")
  let cmc := card.cmc.getD 0
  let curvePts :=
    (if (containsSub cmcNote "top-heavy" || containsSub cmcNote "expensive") &&
        decide (cmc ≤ 3)
     then 5 else 0) +
    (if (containsSub cmcNote "too low" || containsSub cmcNote "needs threats") &&
        decide (5 ≤ cmc)
     then 5 else 0)
  synergyPts + keywordPts + creaturePts + additionalPts + removalPts + rampPts +
    drawPts + wipePts + counterPts + protectPts + gravePts + tokenPts + tutorPts +
    landFetchPts + bigPts + curvePts

/-- A scorer output entry: the input card plus the added
`relevanceScore` field (`\x7b ...card, relevanceScore: score \x7d`). -/
structure ScoredCard where
  card : Card
  relevanceScore : Nat
deriving DecidableEq, Repr

/-- The deck-exclusion filter of `filterCollectionByNeeds` lines 10-15:
keep cards whose (lower-cased) name is not among the deck-card names.
JS `Set.has(card.name?.toLowerCase())` is `false` when `name` is absent. -/
def excludeDeckNames (collection : List Card) (deckCards : List DeckCard) : List Card :=
  let deckCardNames := deckCards.map (fun c => lowerStr c.name)
  collection.filter (fun card =>
    !(match card.name with
      | some nm => deckCardNames.contains (lowerStr nm)
      | none => false))

/-- Lines 14-20 of `filterCollectionByNeeds`: exclude deck cards, score,
keep positive scores — the list fed into the sort, in input order. -/
def scoredPositive (collection : List Card) (needs : Needs) (deckCards : List DeckCard) :
    List ScoredCard :=
  ((excludeDeckNames collection deckCards).map
      (fun card => { card := card, relevanceScore := scoreCard card needs })).filter
    (fun sc => decide (0 < sc.relevanceScore))

/-- The ordering realised by the JS comparator
`(a, b) => b.relevanceScore - a.relevanceScore`: `a` may precede `b` iff
`a`'s score is at least `b`'s. -/
def scoredDesc (a b : ScoredCard) : Prop :=
  b.relevanceScore ≤ a.relevanceScore

instance : DecidableRel scoredDesc :=
  fun a b => Nat.decLe b.relevanceScore a.relevanceScore

instance : IsTotal ScoredCard scoredDesc :=
  ⟨fun a b => (Nat.le_total a.relevanceScore b.relevanceScore).symm⟩

instance : IsTrans ScoredCard scoredDesc :=
  ⟨fun _ _ _ h1 h2 => Nat.le_trans h2 h1⟩

/-- `filterCollectionByNeeds(collection, needs, deckCards)`
(src/unnamed/part_004 lines 5-33): score and filter, sort by descending
score (`Array.prototype.sort` is required to be a stable sort, modelled by
the stable `List.insertionSort`: same sorted output, ties kept in input
order), truncate to the top 100 (`slice(0, 100)`). -/
def filterCollectionByNeeds (collection : List Card) (needs : Needs)
    (deckCards : List DeckCard) : List ScoredCard :=
  ((scoredPositive collection needs deckCards).insertionSort scoredDesc).take 100

/-! ## Availability computation
(src/src/components/AIAnalyzer.jsx `getAvailableCards`,
src/src/components/CollectionManager.jsx `getCardUsage`) -/

/-- A collection entry as read by the availability computation:
`scryfallId` may be absent (JS `undefined === undefined` is `true`, which
`Option` equality mirrors). -/
structure OwnedCard where
  scryfallId : Option String
  name : String
  quantity : Int
deriving DecidableEq, Repr

/-- A card entry inside a stored deck's `cards` list. -/
structure DeckListCard where
  scryfallId : Option String
  name : String
  quantity : Int
deriving DecidableEq, Repr

/-- A stored deck, as far as availability is concerned. -/
structure StoredDeck where
  cards : List DeckListCard
deriving DecidableEq, Repr

/-- `getCardUsage(card)` from CollectionManager.jsx lines 83-92: for each
deck, `find` the first card with the same `scryfallId` and add its
quantity.  (AIAnalyzer.jsx lines 14-28 inlines the identical loop.) -/
def getCardUsage (card : OwnedCard) (decks : List StoredDeck) : Int :=
  decks.foldl (fun inUse d =>
    match d.cards.find? (fun c => c.scryfallId == card.scryfallId) with
    | some deckCard => inUse + deckCard.quantity
    | none => inUse) 0

/-- A collection entry with the added `available` field. -/
structure AvailableCard where
  card : OwnedCard
  available : Int
deriving DecidableEq, Repr

/-- `getAvailableCards()` from AIAnalyzer.jsx lines 14-28:
`available = quantity - inUse`, keeping only entries with
`available > 0`. -/
def getAvailableCards (collection : List OwnedCard) (decks : List StoredDeck) :
    List AvailableCard :=
  (collection.map (fun card =>
      { card := card, available := card.quantity - getCardUsage card decks })).filter
    (fun a => decide (0 < a.available))

/-! ## Manabox deck-list parser
(src/src/services/scryfallService.js `ManaboxParser`; src/unnamed/part_003
holds an earlier copy with the same `parseCardLine`) -/

/-- A parsed deck-list entry.  `quantity` is an `Int` because the CSV
dialect obtains it through `parseInt`, which can produce any integer. -/
structure ParsedEntry where
  quantity : Int
  name : String
  set : Option String
  collectorNumber : Option String
deriving DecidableEq, Repr

/-- A per-line parse error record `\x7b line, reason \x7d`. -/
structure ParseError where
  line : String
  reason : String
deriving DecidableEq, Repr

/-- The parser's result shape `\x7b commander, cards, errors \x7d`. -/
structure ParsedDeck where
  commander : List ParsedEntry
  cards : List ParsedEntry
  errors : List ParseError
deriving DecidableEq, Repr

/-- Character class `[A-Z0-9]` of the set-code capture. -/
def setChar (c : Char) : Bool :=
  (decide ('A' ≤ c) && decide (c ≤ 'Z')) || (decide ('0' ≤ c) && decide (c ≤ '9'))

/-- The deterministic tail `\s*\(([A-Z0-9]+)\)\s*(\d+)` of the full card
pattern: each quantifier here commits to its maximal run (the following
literal can never match a character the run gave back). -/
def matchParen (rest : List Char) : Option (List Char × List Char) :=
  match rest.dropWhile wsChar with
  | '(' :: r2 =>
    let st := r2.takeWhile setChar
    if st.isEmpty then none
    else
      match r2.dropWhile setChar with
      | ')' :: r3 =>
        let num := (r3.dropWhile wsChar).takeWhile Char.isDigit
        if num.isEmpty then none else some (st, num)
      | _ => none
  | _ => none

/-- Backtracking search for `\s+(.+?)\s*\(([A-Z0-9]+)\)\s*(\d+)` applied
after the quantity prefix.  The JS engine tries the greedy `\s+` longest
first and, within each whitespace split, grows the lazy name capture `.+?`
from the shortest; the first success is the match.  `.` excludes `'\n'`. -/
def matchFull (rest : List Char) : Option (List Char × List Char × List Char) :=
  let maxW := (rest.takeWhile wsChar).length
  (List.range maxW).findSome? (fun k =>
    let tailw := rest.drop (maxW - k)
    (List.range tailw.length).findSome? (fun m =>
      let nameChars := tailw.take (m + 1)
      if nameChars.all (fun c => !(c == '\n')) then
        (matchParen (tailw.drop (m + 1))).map (fun p => (nameChars, p.1, p.2))
      else none))

/-- Backtracking search for the fallback pattern tail `\s+(.+)` after the
quantity prefix: greedy `\s+` longest first, then the greedy `.+` takes
the maximal run of non-newline characters, which must be nonempty. -/
def matchSimple (rest : List Char) : Option (List Char) :=
  let maxW := (rest.takeWhile wsChar).length
  (List.range maxW).findSome? (fun k =>
    let nameChars := (rest.drop (maxW - k)).takeWhile (fun c => !(c == '\n'))
    if nameChars.isEmpty then none else some nameChars)

/-- The shared anchored quantity prefix of both card-line patterns: drop
the maximal leading digit run (it can never be given back, since neither
`x?` nor `\s+` matches a digit), then the optional `x`, consumed exactly
when present (since `\s+` cannot match it). -/
def dropQtyPrefix (cs : List Char) : List Char :=
  match cs.dropWhile Char.isDigit with
  | 'x' :: r => r
  | r => r

/-- `ManaboxParser.parseCardLine(line)`: try
`^(\d+)x?\s+(.+?)\s*\(([A-Z0-9]+)\)\s*(\d+)`, falling back to
`^(\d+)x?\s+(.+)`.  Both patterns require a nonempty leading digit run;
`parseInt` of the digit capture is its numeric value; the name capture is
`.trim()`-ed. -/
def parseCardLine (line : String) : Option ParsedEntry :=
  if (line.toList.takeWhile Char.isDigit).isEmpty then none
  else
    match matchFull (dropQtyPrefix line.toList) with
    | some (nm, st, num) =>
      some { quantity := (natOfDigits (line.toList.takeWhile Char.isDigit) : Int),
             name := String.mk (trimWs nm),
             set := some (String.mk st), collectorNumber := some (String.mk num) }
    | none =>
      match matchSimple (dropQtyPrefix line.toList) with
      | some nm =>
        some { quantity := (natOfDigits (line.toList.takeWhile Char.isDigit) : Int),
               name := String.mk (trimWs nm),
               set := none, collectorNumber := none }
      | none => none

/-- Insertion-ordered name-keyed accumulator of `parseTXT` / `parseCSV`
(`cardsByName`, a JS object whose string keys keep insertion order):
merging an existing key adds quantities onto the stored entry, a fresh key
is appended. -/
def upsert (acc : List (String × ParsedEntry)) (key : String) (e : ParsedEntry) :
    List (String × ParsedEntry) :=
  if acc.any (fun p => p.1 == key) then
    acc.map (fun p =>
      if p.1 == key then (p.1, { p.2 with quantity := p.2.quantity + e.quantity }) else p)
  else acc ++ [(key, e)]

/-- Running state of the `parseTXT` loop. -/
structure TxtState where
  isCommander : Bool
  commanderAcc : List (String × ParsedEntry)
  mainAcc : List (String × ParsedEntry)
  errors : List ParseError
deriving DecidableEq, Repr

/-- One iteration of the `parseTXT` line loop: section markers (`//...`)
switch the current section, parsable lines merge into the section's
accumulator keyed by lower-cased name, anything else appends a
`Could not parse format` error. -/
def txtStep (st : TxtState) (line : String) : TxtState :=
  if jsStartsWith line "//" then
    let sec := lowerStr (jsTrim (String.mk (line.toList.drop 2)))
    { st with isCommander := sec == "commander" }
  else
    match parseCardLine line with
    | some e =>
      let key := lowerStr e.name
      if st.isCommander then { st with commanderAcc := upsert st.commanderAcc key e }
      else { st with mainAcc := upsert st.mainAcc key e }
    | none =>
      { st with errors := st.errors ++ [{ line := line, reason := "Could not parse format" }] }

/-- The line preprocessing shared by `parseTXT` and `parseCSV`:
`text.split('\n').map(l => l.trim()).filter(l => l.length > 0)`. -/
def txtLines (text : String) : List String :=
  (((splitNl text.toList).map (fun cs => jsTrim (String.mk cs)))).filter
    (fun l => decide (0 < l.length))

/-- `ManaboxParser.parseTXT(text)` (scryfallService.js lines 371-414). -/
def parseTXT (text : String) : ParsedDeck :=
  let final := (txtLines text).foldl txtStep
    { isCommander := false, commanderAcc := [], mainAcc := [], errors := [] }
  { commander := final.commanderAcc.map (fun p => p.2),
    cards := final.mainAcc.map (fun p => p.2),
    errors := final.errors }

/-- `ManaboxParser.parseCSVLine(line)`: split on commas outside double
quotes; a quote character toggles the in-quotes flag and is dropped. -/
def parseCSVLine (line : String) : List String :=
  let fin := line.toList.foldl (fun (st : List String × List Char × Bool) c =>
    if c == '"' then (st.1, st.2.1, !st.2.2)
    else if c == ',' && !st.2.2 then (st.1 ++ [String.mk st.2.1], [], st.2.2)
    else (st.1, st.2.1 ++ [c], st.2.2)) ([], [], false)
  fin.1 ++ [String.mk fin.2.1]

/-- The lower-cased, trimmed header cells of a CSV input's first line. -/
def csvHeaders (text : String) : List String :=
  (parseCSVLine ((txtLines text).headD "")).map (fun h => jsTrim (lowerStr h))

/-- `headers.findIndex(h => h === 'name' || h === 'card name')`;
`none` models `-1`. -/
def csvNameIdx (text : String) : Option Nat :=
  (csvHeaders text).findIdx? (fun h => h == "name" || h == "card name")

/-- The quantity column index of the CSV header. -/
def csvQtyIdx (text : String) : Option Nat :=
  (csvHeaders text).findIdx? (fun h =>
    containsSub h "quantity" || containsSub h "qty" || h == "count")

/-- The set-code column index of the CSV header. -/
def csvSetIdx (text : String) : Option Nat :=
  (csvHeaders text).findIdx? (fun h => h == "set code" || h == "set" || h == "edition")

/-- The collector-number column index of the CSV header. -/
def csvCollectorIdx (text : String) : Option Nat :=
  (csvHeaders text).findIdx? (fun h => containsSub h "collector" || containsSub h "number")

/-- One data row of `parseCSV`: rows with fewer than two cells, a missing
name cell, or an empty trimmed name are skipped; a missing or unparsable
quantity cell defaults to 1 (`parseInt(...) || 1`, so `NaN` and `0` both
become 1); rows merge by lower-cased name. -/
def csvRow (nameIdx : Nat) (qtyIdx setIdx collectorIdx : Option Nat)
    (acc : List (String × ParsedEntry)) (line : String) :
    List (String × ParsedEntry) :=
  let cols := parseCSVLine line
  if cols.length < 2 then acc
  else
    match cols[nameIdx]? with
    | none => acc
    | some rawName =>
      let name := jsTrim rawName
      if name == "" then acc
      else
        let quantity : Int :=
          match qtyIdx with
          | none => 1
          | some qi =>
            match (cols[qi]?).bind jsParseInt with
            | none => 1
            | some 0 => 1
            | some q => q
        let set := setIdx.bind (fun si => (cols[si]?).map jsTrim)
        let collectorNumber := collectorIdx.bind (fun ci => (cols[ci]?).map jsTrim)
        upsert acc (lowerStr name)
          { quantity := quantity, name := name, set := set,
            collectorNumber := collectorNumber }

/-- `ManaboxParser.parseCSV(text)` (scryfallService.js lines 418-472):
fewer than two lines is the `CSV file is empty` failure; a header without
a name column is the single-error failure naming the missing column;
otherwise every data row is folded in and `errors` stays empty. -/
def parseCSV (text : String) : ParsedDeck :=
  if (txtLines text).length < 2 then
    { commander := [], cards := [],
      errors := [{ line := "", reason := "CSV file is empty" }] }
  else
    match csvNameIdx text with
    | none =>
      { commander := [], cards := [],
        errors := [{ line := (txtLines text).headD "",
                     reason := "Could not find \"Name\" column in CSV. Found: " ++
                       String.intercalate ", " (csvHeaders text) }] }
    | some nameIdx =>
      { commander := [],
        cards := (((txtLines text).drop 1).foldl
          (csvRow nameIdx (csvQtyIdx text) (csvSetIdx text) (csvCollectorIdx text))
          []).map (fun p => p.2),
        errors := [] }

/-- `ManaboxParser.parse(text)`: dispatch on the first line — a comma plus
a `name`/`binder` marker selects the CSV dialect. -/
def parseDispatch (text : String) : ParsedDeck :=
  let firstLine := jsTrim (String.mk ((splitNl text.toList).headD []))
  if containsSub firstLine "," &&
     (containsSub (lowerStr firstLine) "name" || containsSub (lowerStr firstLine) "binder")
  then parseCSV text
  else parseTXT text

/-! ## Helper lemmas -/

/-- Scorer output entries all come from the pre-sort scored list. -/
lemma mem_scoredPositive_of_mem_filterCollection {coll : List Card} {needs : Needs}
    {deck : List DeckCard} {sc : ScoredCard}
    (h : sc ∈ filterCollectionByNeeds coll needs deck) :
    sc ∈ scoredPositive coll needs deck := by
  unfold filterCollectionByNeeds at h
  exact (List.mem_insertionSort scoredDesc).mp (List.mem_of_mem_take h)

/-- Unpacking membership in the pre-sort scored list. -/
lemma mem_scoredPositive_elim {coll : List Card} {needs : Needs}
    {deck : List DeckCard} {sc : ScoredCard}
    (h : sc ∈ scoredPositive coll needs deck) :
    ∃ card ∈ excludeDeckNames coll deck,
      sc = { card := card, relevanceScore := scoreCard card needs } ∧
      0 < sc.relevanceScore := by
  unfold scoredPositive at h
  have h1 := List.mem_filter.mp h
  obtain ⟨card, hc, hmk⟩ := List.mem_map.mp h1.1
  exact ⟨card, hc, hmk.symm, of_decide_eq_true h1.2⟩

end Mtg

/-- C1.  The relevance scorer returns at most 100 entries, every returned
entry has a strictly positive `relevanceScore`, and an empty result is a
valid output (an empty collection yields `[]`, never padded). -/
theorem Mtg.scorer_card_bound_and_positive (coll : List Mtg.Card) (needs : Mtg.Needs)
    (deck : List Mtg.DeckCard) :
    (Mtg.filterCollectionByNeeds coll needs deck).length ≤ 100 ∧
    (∀ sc ∈ Mtg.filterCollectionByNeeds coll needs deck, 0 < sc.relevanceScore) ∧
    Mtg.filterCollectionByNeeds [] needs deck = [] := by
  refine ⟨?_, ?_, rfl⟩
  · unfold Mtg.filterCollectionByNeeds
    exact List.length_take_le 100 _
  · intro sc hsc
    obtain ⟨card, -, -, hpos⟩ :=
      Mtg.mem_scoredPositive_elim (Mtg.mem_scoredPositive_of_mem_filterCollection hsc)
    exact hpos

namespace Mtg

/-- Concrete data reused by the scorer witnesses. -/
def wDraw1 : Card :=
  { name := some "Divination", oracleText := some "Draw two cards.",
    type := some "Sorcery", keywords := some [], power := none, cmc := some 3 }

/-- Second concrete card for the scorer witnesses. -/
def wDraw2 : Card :=
  { name := some "Opt", oracleText := some "Draw a card. Draw a card.",
    type := some "Instant", keywords := some [], power := none, cmc := some 1 }

/-- A need record asking only for card draw. -/
def drawOnlyNeeds : Needs := { needsCardDraw := true }

end Mtg

/-- C1 witness: a concrete scorer output entry, with the membership
hypothesis discharged by evaluation. -/
theorem Mtg.scorer_card_bound_and_positive_witness :
    (⟨Mtg.wDraw1, 12⟩ : Mtg.ScoredCard) ∈
      Mtg.filterCollectionByNeeds [Mtg.wDraw1, Mtg.wDraw2] Mtg.drawOnlyNeeds
        [⟨"Sol Ring"⟩] ∧
    0 < (⟨Mtg.wDraw1, 12⟩ : Mtg.ScoredCard).relevanceScore :=
  ⟨by decide,
   (Mtg.scorer_card_bound_and_positive [Mtg.wDraw1, Mtg.wDraw2] Mtg.drawOnlyNeeds
      [⟨"Sol Ring"⟩]).2.1 ⟨Mtg.wDraw1, 12⟩ (by decide)⟩

/-- C3.  No card whose name matches (case-insensitively) the name of a
deck card appears in the scorer's output. -/
theorem Mtg.scorer_excludes_deck_names (coll : List Mtg.Card) (needs : Mtg.Needs)
    (deck : List Mtg.DeckCard) :
    ∀ sc ∈ Mtg.filterCollectionByNeeds coll needs deck, ∀ d ∈ deck,
      sc.card.name.map Mtg.lowerStr ≠ some (Mtg.lowerStr d.name) := by
  intro sc hsc d hd heq
  obtain ⟨card, hcard, hmk, -⟩ :=
    Mtg.mem_scoredPositive_elim (Mtg.mem_scoredPositive_of_mem_filterCollection hsc)
  have hcc : sc.card = card := by rw [hmk]
  rw [hcc] at heq
  unfold Mtg.excludeDeckNames at hcard
  have h2 := (List.mem_filter.mp hcard).2
  cases hname : card.name with
  | none =>
    rw [hname] at heq
    exact Option.noConfusion heq
  | some nm =>
    rw [hname] at heq
    have heq2 : Mtg.lowerStr nm = Mtg.lowerStr d.name := Option.some.inj heq
    rw [hname] at h2
    have hmem : Mtg.lowerStr nm ∈ deck.map (fun c => Mtg.lowerStr c.name) := by
      rw [heq2]
      exact List.mem_map_of_mem _ hd
    have hcont : (deck.map (fun c => Mtg.lowerStr c.name)).contains (Mtg.lowerStr nm) = true :=
      List.elem_eq_true_of_mem hmem
    have h3 : (!(deck.map (fun c => Mtg.lowerStr c.name)).contains (Mtg.lowerStr nm)) = true := h2
    rw [hcont] at h3
    exact Bool.noConfusion h3

/-- C3 witness: the exclusion theorem applied to a concrete output entry
and deck card, membership hypotheses discharged by evaluation. -/
theorem Mtg.scorer_excludes_deck_names_witness :
    ((⟨Mtg.wDraw1, 12⟩ : Mtg.ScoredCard) ∈
        Mtg.filterCollectionByNeeds [Mtg.wDraw1, Mtg.wDraw2] Mtg.drawOnlyNeeds
          [⟨"Sol Ring"⟩]) ∧
    ((⟨"Sol Ring"⟩ : Mtg.DeckCard) ∈ ([⟨"Sol Ring"⟩] : List Mtg.DeckCard)) ∧
    (⟨Mtg.wDraw1, 12⟩ : Mtg.ScoredCard).card.name.map Mtg.lowerStr ≠
      some (Mtg.lowerStr (⟨"Sol Ring"⟩ : Mtg.DeckCard).name) :=
  ⟨by decide, by decide,
   Mtg.scorer_excludes_deck_names [Mtg.wDraw1, Mtg.wDraw2] Mtg.drawOnlyNeeds
     [⟨"Sol Ring"⟩] ⟨Mtg.wDraw1, 12⟩ (by decide) ⟨"Sol Ring"⟩ (by decide)⟩

/-- C10.  Every scorer output entry is one of the input collection cards,
unchanged, with exactly the `relevanceScore` of that card attached. -/
theorem Mtg.scorer_frame_preserves_cards (coll : List Mtg.Card) (needs : Mtg.Needs)
    (deck : List Mtg.DeckCard) :
    ∀ sc ∈ Mtg.filterCollectionByNeeds coll needs deck,
      sc.card ∈ coll ∧
      sc = { card := sc.card, relevanceScore := Mtg.scoreCard sc.card needs } := by
  intro sc hsc
  obtain ⟨card, hcard, hmk, -⟩ :=
    Mtg.mem_scoredPositive_elim (Mtg.mem_scoredPositive_of_mem_filterCollection hsc)
  have hmem : card ∈ coll := by
    unfold Mtg.excludeDeckNames at hcard
    exact (List.filter_sublist _).mem hcard
  subst hmk
  exact ⟨hmem, rfl⟩

/-- C10 witness: a concrete output entry is its input card plus exactly
that card's score, the membership hypothesis discharged by evaluation. -/
theorem Mtg.scorer_frame_preserves_cards_witness :
    (⟨Mtg.wDraw2, 12⟩ : Mtg.ScoredCard) ∈
      Mtg.filterCollectionByNeeds [Mtg.wDraw1, Mtg.wDraw2] Mtg.drawOnlyNeeds
        [⟨"Sol Ring"⟩] ∧
    ((⟨Mtg.wDraw2, 12⟩ : Mtg.ScoredCard).card ∈ [Mtg.wDraw1, Mtg.wDraw2] ∧
     (⟨Mtg.wDraw2, 12⟩ : Mtg.ScoredCard) =
       { card := (⟨Mtg.wDraw2, 12⟩ : Mtg.ScoredCard).card,
         relevanceScore :=
           Mtg.scoreCard (⟨Mtg.wDraw2, 12⟩ : Mtg.ScoredCard).card Mtg.drawOnlyNeeds }) :=
  ⟨by decide,
   Mtg.scorer_frame_preserves_cards [Mtg.wDraw1, Mtg.wDraw2] Mtg.drawOnlyNeeds
     [⟨"Sol Ring"⟩] ⟨Mtg.wDraw2, 12⟩ (by decide)⟩


/-- C4.  The scorer is a total function (its Lean embedding is a plain
function, defined on every input) and each absent optional field of the
need record is neutral: absent term lists score like explicitly empty
ones, an absent `minPower` kills the big-creature bonus exactly like a
cleared flag, an absent curve note scores like an empty one, and the need
record with every field absent gives every card score 0, so the scorer
returns `[]` on it. -/
theorem Mtg.scorer_total_absent_fields_neutral :
    (∀ (c : Mtg.Card) (n : Mtg.Needs),
       Mtg.scoreCard c { n with synergyOracleTerms := none } =
         Mtg.scoreCard c { n with synergyOracleTerms := some [] }) ∧
    (∀ (c : Mtg.Card) (n : Mtg.Needs),
       Mtg.scoreCard c { n with wantedKeywords := none } =
         Mtg.scoreCard c { n with wantedKeywords := some [] }) ∧
    (∀ (c : Mtg.Card) (n : Mtg.Needs),
       Mtg.scoreCard c { n with wantedCreatureTypes := none } =
         Mtg.scoreCard c { n with wantedCreatureTypes := some [] }) ∧
    (∀ (c : Mtg.Card) (n : Mtg.Needs),
       Mtg.scoreCard c { n with additionalOracleTerms := none } =
         Mtg.scoreCard c { n with additionalOracleTerms := some [] }) ∧
    (∀ (c : Mtg.Card) (n : Mtg.Needs),
       Mtg.scoreCard c { n with minPower := none } =
         Mtg.scoreCard c { n with minPower := none, wantBigCreatures := false }) ∧
    (∀ (c : Mtg.Card) (n : Mtg.Needs),
       Mtg.scoreCard c { n with cmcCurveNote := none } =
         Mtg.scoreCard c { n with cmcCurveNote := some "" }) ∧
    (∀ c : Mtg.Card, Mtg.scoreCard c {} = 0) ∧
    (∀ (coll : List Mtg.Card) (deck : List Mtg.DeckCard),
       Mtg.filterCollectionByNeeds coll {} deck = []) := by
  refine ⟨fun c n => rfl, fun c n => rfl, fun c n => rfl, fun c n => rfl,
    fun c n => ?_, fun c n => rfl, fun c => rfl, fun coll deck => ?_⟩
  · simp [Mtg.scoreCard, Mtg.jsNumTruthy]
  · have hpos : Mtg.scoredPositive coll {} deck = [] := by
      apply List.filter_eq_nil_iff.mpr
      intro sc hsc
      obtain ⟨card, -, hmk⟩ := List.mem_map.mp hsc
      have hz : sc.relevanceScore = 0 := by
        rw [← hmk]
        rfl
      simp [hz]
    unfold Mtg.filterCollectionByNeeds
    rw [hpos]
    rfl

/-- C5.  With card draw requested and no other signal, a card scores
exactly 12 when its oracle text contains at least one draw phrase and 0
otherwise — flat per card, not per phrase occurrence; in general the draw
signal's total contribution to any score is this flat amount; the concrete
card with oracle text `Draw a card. Draw a card.` gets exactly 12. -/
theorem Mtg.draw_role_flat_twelve :
    (∀ c : Mtg.Card,
       Mtg.scoreCard c Mtg.drawOnlyNeeds =
         if Mtg.drawTerms.any (fun t =>
              Mtg.containsSub (Mtg.lowerStr (c.oracleText.getD "")) t)
         then 12 else 0) ∧
    (∀ (c : Mtg.Card) (n : Mtg.Needs),
       Mtg.scoreCard c n =
         Mtg.scoreCard c { n with needsCardDraw := false } +
           Mtg.scoreCard c { needsCardDraw := n.needsCardDraw } ) ∧
    Mtg.scoreCard Mtg.wDraw2 Mtg.drawOnlyNeeds = 12 := by
  have e1 : Mtg.containsSub (Mtg.lowerStr "") "top-heavy" = false := by decide
  have e2 : Mtg.containsSub (Mtg.lowerStr "") "expensive" = false := by decide
  have e3 : Mtg.containsSub (Mtg.lowerStr "") "too low" = false := by decide
  have e4 : Mtg.containsSub (Mtg.lowerStr "") "needs threats" = false := by decide
  refine ⟨fun c => ?_, fun c n => ?_, by decide⟩
  · by_cases h : Mtg.drawTerms.any (fun t =>
        Mtg.containsSub (Mtg.lowerStr (c.oracleText.getD "")) t) = true
    · simp [Mtg.scoreCard, Mtg.drawOnlyNeeds, Mtg.jsNumTruthy, h, e1, e2, e3, e4]
    · simp [Mtg.scoreCard, Mtg.drawOnlyNeeds, Mtg.jsNumTruthy, h, e1, e2, e3, e4]
  · simp only [Mtg.scoreCard]
    cases hb : n.needsCardDraw <;>
      (simp [hb, Mtg.jsNumTruthy, e1, e2, e3, e4]; try omega)

namespace Mtg

/-- Stability of the modelled sort: filtering the sorted list down to one
score value gives exactly the input-order sublist with that score. -/
lemma insertionSort_filter_score (l : List ScoredCard) (s : Nat) :
    (l.insertionSort scoredDesc).filter (fun sc => sc.relevanceScore == s) =
      l.filter (fun sc => sc.relevanceScore == s) := by
  have hpair : (l.filter (fun sc => sc.relevanceScore == s)).Pairwise scoredDesc := by
    apply List.pairwise_of_forall_mem_list
    intro x hx y hy
    have hxs : x.relevanceScore = s := eq_of_beq (List.mem_filter.mp hx).2
    have hys : y.relevanceScore = s := eq_of_beq (List.mem_filter.mp hy).2
    unfold scoredDesc
    rw [hxs, hys]
  have hsub : (l.filter (fun sc => sc.relevanceScore == s)).Sublist
      (l.insertionSort scoredDesc) :=
    List.sublist_insertionSort hpair (List.filter_sublist l)
  have hself : (l.filter (fun sc => sc.relevanceScore == s)).filter
      (fun sc => sc.relevanceScore == s) = l.filter (fun sc => sc.relevanceScore == s) :=
    List.filter_eq_self.mpr (fun a ha => (List.mem_filter.mp ha).2)
  have hsub2 : (l.filter (fun sc => sc.relevanceScore == s)).Sublist
      ((l.insertionSort scoredDesc).filter (fun sc => sc.relevanceScore == s)) := by
    have h := hsub.filter (fun sc => sc.relevanceScore == s)
    rwa [hself] at h
  have hlen : ((l.insertionSort scoredDesc).filter (fun sc => sc.relevanceScore == s)).length =
      (l.filter (fun sc => sc.relevanceScore == s)).length :=
    ((List.perm_insertionSort scoredDesc l).filter _).length_eq
  exact (hsub2.eq_of_length hlen.symm).symm

end Mtg

/-- C2.  The scorer's output is ordered by descending `relevanceScore`
(each entry's score is at least the next one's), and ties keep the input
order: for every score value, the output entries carrying that score form
a sublist of the pre-sort scored list, which lists the collection cards in
input order (stable sort). -/
theorem Mtg.scorer_sorted_descending_stable (coll : List Mtg.Card) (needs : Mtg.Needs)
    (deck : List Mtg.DeckCard) :
    (∀ (i : Nat) (a b : Mtg.ScoredCard),
       (Mtg.filterCollectionByNeeds coll needs deck)[i]? = some a →
       (Mtg.filterCollectionByNeeds coll needs deck)[i + 1]? = some b →
       b.relevanceScore ≤ a.relevanceScore) ∧
    (∀ s : Nat,
       ((Mtg.filterCollectionByNeeds coll needs deck).filter
           (fun sc => sc.relevanceScore == s)).Sublist
         (Mtg.scoredPositive coll needs deck)) := by
  constructor
  · intro i a b ha hb
    have hs : (Mtg.filterCollectionByNeeds coll needs deck).Pairwise Mtg.scoredDesc := by
      unfold Mtg.filterCollectionByNeeds
      exact List.Pairwise.sublist (List.take_sublist _ _) (List.sorted_insertionSort _ _)
    obtain ⟨hi, hai⟩ := List.getElem?_eq_some.mp ha
    obtain ⟨hj, hbj⟩ := List.getElem?_eq_some.mp hb
    have hrel := List.Sorted.rel_get_of_lt hs
      (a := ⟨i, hi⟩) (b := ⟨i + 1, hj⟩) (by exact Nat.lt_succ_self i)
    rw [List.get_eq_getElem, List.get_eq_getElem] at hrel
    simp only at hrel
    rw [hai, hbj] at hrel
    exact hrel
  · intro s
    unfold Mtg.filterCollectionByNeeds
    have h1 := (List.take_sublist 100
      ((Mtg.scoredPositive coll needs deck).insertionSort Mtg.scoredDesc)).filter
      (fun sc => sc.relevanceScore == s)
    rw [Mtg.insertionSort_filter_score] at h1
    exact h1.trans (List.filter_sublist _)

/-- C2 witness: a concrete two-element output, adjacent scores compared,
hypotheses discharged by evaluation. -/
theorem Mtg.scorer_sorted_descending_stable_witness :
    (Mtg.filterCollectionByNeeds [Mtg.wDraw1, Mtg.wDraw2] Mtg.drawOnlyNeeds
        [⟨"Sol Ring"⟩])[0]? = some ⟨Mtg.wDraw1, 12⟩ ∧
    (Mtg.filterCollectionByNeeds [Mtg.wDraw1, Mtg.wDraw2] Mtg.drawOnlyNeeds
        [⟨"Sol Ring"⟩])[0 + 1]? = some ⟨Mtg.wDraw2, 12⟩ ∧
    (⟨Mtg.wDraw2, 12⟩ : Mtg.ScoredCard).relevanceScore ≤
      (⟨Mtg.wDraw1, 12⟩ : Mtg.ScoredCard).relevanceScore :=
  ⟨by decide, by decide,
   (Mtg.scorer_sorted_descending_stable [Mtg.wDraw1, Mtg.wDraw2] Mtg.drawOnlyNeeds
      [⟨"Sol Ring"⟩]).1 0 ⟨Mtg.wDraw1, 12⟩ ⟨Mtg.wDraw2, 12⟩ (by decide) (by decide)⟩

namespace Mtg

/-- Collection entry for the availability scenarios: 4 owned copies. -/
def wSolRing4 : OwnedCard := { scryfallId := some "id-a", name := "Sol Ring", quantity := 4 }

/-- A deck using 1 copy of the entry (same `scryfallId`). -/
def wDeckUse1 : StoredDeck := ⟨[{ scryfallId := some "id-a", name := "Sol Ring", quantity := 1 }]⟩

/-- A deck using 2 copies of the entry. -/
def wDeckUse2 : StoredDeck := ⟨[{ scryfallId := some "id-a", name := "Sol Ring", quantity := 2 }]⟩

/-- A deck using 3 copies of the entry. -/
def wDeckUse3 : StoredDeck := ⟨[{ scryfallId := some "id-a", name := "Sol Ring", quantity := 3 }]⟩

/-- A deck holding a different printing: same display name, different
`scryfallId`. -/
def wDeckOtherPrinting : StoredDeck :=
  ⟨[{ scryfallId := some "id-b", name := "Sol Ring", quantity := 3 }]⟩

end Mtg

/-- C6.  Every availability entry is a collection entry with
`available = quantity - usage` (usage summed per deck by `scryfallId`,
never by display name) and `available > 0`; every collection entry with a
positive difference is kept.  Concretely: 4 owned, used 1+2 → available 1
and kept; used 1+3 → available 0 and excluded; a same-name card with a
different `scryfallId` contributes no usage. -/
theorem Mtg.availability_subtraction_and_exclusion (collection : List Mtg.OwnedCard)
    (decks : List Mtg.StoredDeck) :
    (∀ ac ∈ Mtg.getAvailableCards collection decks,
       ac.card ∈ collection ∧
       ac.available = ac.card.quantity - Mtg.getCardUsage ac.card decks ∧
       0 < ac.available) ∧
    (∀ c ∈ collection, 0 < c.quantity - Mtg.getCardUsage c decks →
       ({ card := c, available := c.quantity - Mtg.getCardUsage c decks } :
           Mtg.AvailableCard) ∈ Mtg.getAvailableCards collection decks) ∧
    Mtg.getAvailableCards [Mtg.wSolRing4] [Mtg.wDeckUse1, Mtg.wDeckUse2] =
      [{ card := Mtg.wSolRing4, available := 1 }] ∧
    Mtg.getAvailableCards [Mtg.wSolRing4] [Mtg.wDeckUse1, Mtg.wDeckUse3] = [] ∧
    Mtg.getCardUsage Mtg.wSolRing4 [Mtg.wDeckOtherPrinting] = 0 := by
  refine ⟨?_, ?_, by decide, by decide, by decide⟩
  · intro ac hac
    unfold Mtg.getAvailableCards at hac
    have h1 := List.mem_filter.mp hac
    obtain ⟨c, hc, hmk⟩ := List.mem_map.mp h1.1
    have hcc : ac.card = c := by rw [← hmk]
    refine ⟨hcc ▸ hc, ?_, of_decide_eq_true h1.2⟩
    rw [← hmk]
  · intro c hc hpos
    unfold Mtg.getAvailableCards
    exact List.mem_filter.mpr ⟨List.mem_map_of_mem _ hc, decide_eq_true hpos⟩

/-- C6 witness: the availability theorem applied to the concrete 4-owned,
1+2-used scenario, hypotheses discharged by evaluation. -/
theorem Mtg.availability_subtraction_and_exclusion_witness :
    (({ card := Mtg.wSolRing4, available := 1 } : Mtg.AvailableCard) ∈
        Mtg.getAvailableCards [Mtg.wSolRing4] [Mtg.wDeckUse1, Mtg.wDeckUse2]) ∧
    (({ card := Mtg.wSolRing4, available := 1 } : Mtg.AvailableCard).card ∈
        [Mtg.wSolRing4] ∧
     ({ card := Mtg.wSolRing4, available := 1 } : Mtg.AvailableCard).available =
       ({ card := Mtg.wSolRing4, available := 1 } : Mtg.AvailableCard).card.quantity -
         Mtg.getCardUsage ({ card := Mtg.wSolRing4, available := 1 } :
           Mtg.AvailableCard).card [Mtg.wDeckUse1, Mtg.wDeckUse2] ∧
     0 < ({ card := Mtg.wSolRing4, available := 1 } : Mtg.AvailableCard).available) :=
  ⟨by decide,
   (Mtg.availability_subtraction_and_exclusion [Mtg.wSolRing4]
      [Mtg.wDeckUse1, Mtg.wDeckUse2]).1 { card := Mtg.wSolRing4, available := 1 }
     (by decide)⟩

/-- C7.  Parsing the two-printings input merges by case-insensitive
trimmed name and sums quantities: one entry named `Sol Ring` with
quantity 4 (keeping the first printing's set data); a second instance
shows the merge is case-insensitive. -/
theorem Mtg.parse_txt_merges_same_name_printings :
    Mtg.parseTXT "2 Sol Ring (C21) 263\n2 Sol Ring (LTC) 301" =
      { commander := [],
        cards := [{ quantity := 4, name := "Sol Ring", set := some "C21",
                    collectorNumber := some "263" }],
        errors := [] } ∧
    Mtg.parseTXT "2 sol ring\n1 SOL RING" =
      { commander := [],
        cards := [{ quantity := 3, name := "sol ring", set := none,
                    collectorNumber := none }],
        errors := [] } :=
  ⟨by decide, by decide⟩

/-- C9 counterexample: the claim `every accepted line yields quantity ≥ 1`
is false — the card-line pattern accepts `0 Sol Ring` with quantity 0. -/
theorem Mtg.parse_card_line_quantity_zero :
    ¬ (∀ (line : String) (e : Mtg.ParsedEntry),
        Mtg.parseCardLine line = some e → 1 ≤ e.quantity) := by
  intro h
  have h0 := h "0 Sol Ring"
    { quantity := 0, name := "Sol Ring", set := none, collectorNumber := none } (by decide)
  exact absurd h0 (by decide)

namespace Mtg

/-- The digit-run fold never decreases its accumulator. -/
lemma foldl_digits_ge (t : List Char) (acc : Nat) :
    acc ≤ t.foldl (fun a c => 10 * a + (c.toNat - '0'.toNat)) acc := by
  induction t generalizing acc with
  | nil => exact Nat.le_refl _
  | cons c t ih =>
    refine Nat.le_trans ?_ (ih (10 * acc + (c.toNat - '0'.toNat)))
    omega

/-- A digit run led by a nonzero digit has positive value. -/
lemma natOfDigits_head_pos {c : Char} (t : List Char) (hd : c.isDigit = true)
    (hne : c ≠ '0') : 1 ≤ natOfDigits (c :: t) := by
  unfold natOfDigits
  rw [List.foldl_cons]
  refine Nat.le_trans ?_ (foldl_digits_ge t _)
  simp only [Char.isDigit, Bool.and_eq_true, decide_eq_true_eq] at hd
  have h48 : 48 ≤ c.toNat := hd.1
  have hne48 : c.toNat ≠ 48 := by
    intro h
    apply hne
    apply Char.ext
    exact UInt32.ext (h.trans rfl)
  have h0 : '0'.toNat = 48 := rfl
  rw [h0]
  omega

/-- A nonempty `takeWhile` exposes the list's head, which satisfies the
predicate and leads the taken run. -/
lemma takeWhile_head (l : List Char) (p : Char → Bool)
    (h : (l.takeWhile p).isEmpty = false) :
    ∃ c t, l = c :: t ∧ p c = true ∧ l.takeWhile p = c :: t.takeWhile p := by
  cases l with
  | nil => simp [List.takeWhile] at h
  | cons c t =>
    cases hp : p c with
    | true => exact ⟨c, t, rfl, hp, by simp [List.takeWhile_cons, hp]⟩
    | false =>
      rw [List.takeWhile_cons, hp] at h
      simp at h

end Mtg

/-- C9 amended theorem.  Every entry the card-line parser produces has
quantity equal to the numeric value of the line's leading digit run,
hence quantity ≥ 0; quantity ≥ 1 holds whenever the line's first
character is not the digit `0` (a line such as `0 Sol Ring` is accepted
with quantity 0). -/
theorem Mtg.parse_card_line_quantity_nonneg (line : String) (e : Mtg.ParsedEntry)
    (h : Mtg.parseCardLine line = some e) :
    e.quantity = (Mtg.natOfDigits (line.toList.takeWhile Char.isDigit) : Int) ∧
    0 ≤ e.quantity ∧
    (line.toList.head? ≠ some '0' → 1 ≤ e.quantity) := by
  unfold Mtg.parseCardLine at h
  cases hds : (line.toList.takeWhile Char.isDigit).isEmpty with
  | true => rw [hds] at h; simp at h
  | false =>
    rw [hds] at h
    simp only [Bool.false_eq_true, if_false] at h
    have hq : e.quantity = (Mtg.natOfDigits (line.toList.takeWhile Char.isDigit) : Int) := by
      cases hf : Mtg.matchFull (Mtg.dropQtyPrefix line.toList) with
      | some v =>
        rw [hf] at h
        obtain ⟨nm, st, num⟩ := v
        cases h
        rfl
      | none =>
        rw [hf] at h
        cases hs : Mtg.matchSimple (Mtg.dropQtyPrefix line.toList) with
        | some nm => rw [hs] at h; cases h; rfl
        | none => rw [hs] at h; cases h
    refine ⟨hq, by rw [hq]; exact Int.natCast_nonneg _, ?_⟩
    intro hhead
    rw [hq]
    obtain ⟨c, t, hl, hp, htw⟩ := Mtg.takeWhile_head line.toList Char.isDigit hds
    have hcne : c ≠ '0' := by
      intro hc
      apply hhead
      rw [hl, hc]
      rfl
    rw [htw]
    exact_mod_cast Mtg.natOfDigits_head_pos (t.takeWhile Char.isDigit) hp hcne

/-- C9 amended-theorem witness: the line `2 Sol Ring` parses with
quantity 2, which is the value of the digit run, nonnegative, and ≥ 1
since the line does not start with `0`. -/
theorem Mtg.parse_card_line_quantity_nonneg_witness :
    Mtg.parseCardLine "2 Sol Ring" =
      some { quantity := 2, name := "Sol Ring", set := none, collectorNumber := none } ∧
    ((2 : Int) =
        (Mtg.natOfDigits (("2 Sol Ring" : String).toList.takeWhile Char.isDigit) : Int) ∧
      (0 : Int) ≤ 2 ∧
      (("2 Sol Ring" : String).toList.head? ≠ some '0' → (1 : Int) ≤ 2)) :=
  ⟨by decide,
   Mtg.parse_card_line_quantity_nonneg "2 Sol Ring"
     { quantity := 2, name := "Sol Ring", set := none, collectorNumber := none }
     (by decide)⟩

namespace Mtg

/-- The accumulator keys of the `parseTXT` loop state, commander section
first (the order the output lists are emitted in). -/
def accNames (st : TxtState) : List String :=
  (st.commanderAcc ++ st.mainAcc).map (fun p => p.1)

/-- Loop invariant: every accumulator key is the lower-cased name of the
entry it stores. -/
def accInv (st : TxtState) : Prop :=
  ∀ p ∈ st.commanderAcc ++ st.mainAcc, p.1 = lowerStr p.2.name

/-- `upsert` puts its key among the accumulator keys. -/
lemma upsert_mem_key (acc : List (String × ParsedEntry)) (key : String) (e : ParsedEntry) :
    key ∈ (upsert acc key e).map (fun p => p.1) := by
  unfold upsert
  cases ha : acc.any (fun p => p.1 == key) with
  | true =>
    simp only [if_pos]
    obtain ⟨p, hp, hpk⟩ := List.any_eq_true.mp ha
    have hpk2 : p.1 = key := eq_of_beq hpk
    rw [List.map_map]
    apply List.mem_map.mpr
    refine ⟨p, hp, ?_⟩
    simp only [Function.comp_apply]
    rw [if_pos hpk]
    exact hpk2
  | false =>
    simp only [Bool.false_eq_true, if_false, List.map_append]
    exact List.mem_append_right _ (List.mem_singleton.mpr rfl)

/-- `upsert` never removes an accumulator key. -/
lemma upsert_keys_mono (acc : List (String × ParsedEntry)) (key : String) (e : ParsedEntry)
    {k : String} (hk : k ∈ acc.map (fun p => p.1)) :
    k ∈ (upsert acc key e).map (fun p => p.1) := by
  unfold upsert
  cases ha : acc.any (fun p => p.1 == key) with
  | true =>
    simp only [if_pos]
    rw [List.map_map]
    obtain ⟨p, hp, hpk⟩ := List.mem_map.mp hk
    apply List.mem_map.mpr
    refine ⟨p, hp, ?_⟩
    by_cases hc : (p.1 == key) = true
    · simp only [Function.comp_apply, if_pos hc]
      exact hpk
    · simp only [Function.comp_apply, if_neg hc]
      exact hpk
  | false =>
    simp only [Bool.false_eq_true, if_false, List.map_append]
    exact List.mem_append_left _ hk

/-- `upsert` preserves the key/name invariant when keyed by the entry's
lower-cased name. -/
lemma upsert_inv (acc : List (String × ParsedEntry)) (e : ParsedEntry)
    (hinv : ∀ p ∈ acc, p.1 = lowerStr p.2.name) :
    ∀ p ∈ upsert acc (lowerStr e.name) e, p.1 = lowerStr p.2.name := by
  intro p hp
  unfold upsert at hp
  cases ha : acc.any (fun q => q.1 == lowerStr e.name) with
  | true =>
    rw [ha, if_pos rfl] at hp
    obtain ⟨q, hq, hmk⟩ := List.mem_map.mp hp
    by_cases hc : (q.1 == lowerStr e.name) = true
    · rw [if_pos hc] at hmk
      rw [← hmk]
      exact hinv q hq
    · rw [if_neg hc] at hmk
      rw [← hmk]
      exact hinv q hq
  | false =>
    rw [ha] at hp
    simp only [Bool.false_eq_true, if_false] at hp
    rcases List.mem_append.mp hp with h | h
    · exact hinv p h
    · rw [List.mem_singleton.mp h]

/-- One parser-loop step preserves the key/name invariant. -/
lemma txtStep_inv (st : TxtState) (line : String) (hinv : accInv st) :
    accInv (txtStep st line) := by
  unfold txtStep
  cases hns : jsStartsWith line "//" with
  | true =>
    simp only [if_pos]
    intro p hp
    exact hinv p hp
  | false =>
    simp only [Bool.false_eq_true, if_false]
    cases hp : parseCardLine line with
    | some e =>
      cases hc : st.isCommander with
      | true =>
        simp only [if_pos]
        intro p hp2
        rcases List.mem_append.mp hp2 with h | h
        · exact upsert_inv st.commanderAcc e
            (fun q hq => hinv q (List.mem_append_left _ hq)) p h
        · exact hinv p (List.mem_append_right _ h)
      | false =>
        simp only [Bool.false_eq_true, if_false]
        intro p hp2
        rcases List.mem_append.mp hp2 with h | h
        · exact hinv p (List.mem_append_left _ h)
        · exact upsert_inv st.mainAcc e
            (fun q hq => hinv q (List.mem_append_right _ hq)) p h
    | none =>
      intro p hp2
      exact hinv p hp2

/-- One parser-loop step never removes an accumulator key. -/
lemma txtStep_keys_mono (st : TxtState) (line : String) {k : String}
    (hk : k ∈ accNames st) : k ∈ accNames (txtStep st line) := by
  unfold txtStep
  cases hns : jsStartsWith line "//" with
  | true => exact hk
  | false =>
    simp only [Bool.false_eq_true, if_false]
    cases hp : parseCardLine line with
    | some e =>
      unfold accNames at hk
      rw [List.map_append] at hk
      cases hc : st.isCommander with
      | true =>
        simp only [if_pos]
        unfold accNames
        rw [List.map_append]
        rcases List.mem_append.mp hk with h | h
        · exact List.mem_append_left _ (upsert_keys_mono _ _ _ h)
        · exact List.mem_append_right _ h
      | false =>
        simp only [Bool.false_eq_true, if_false]
        unfold accNames
        rw [List.map_append]
        rcases List.mem_append.mp hk with h | h
        · exact List.mem_append_left _ h
        · exact List.mem_append_right _ (upsert_keys_mono _ _ _ h)
    | none => exact hk

/-- One parser-loop step never removes an error record. -/
lemma txtStep_errors_mono (st : TxtState) (line : String) {er : ParseError}
    (he : er ∈ st.errors) : er ∈ (txtStep st line).errors := by
  unfold txtStep
  cases hns : jsStartsWith line "//" with
  | true => exact he
  | false =>
    simp only [Bool.false_eq_true, if_false]
    cases hp : parseCardLine line with
    | some e =>
      cases hc : st.isCommander with
      | true => simp only [if_pos]; exact he
      | false => simp only [Bool.false_eq_true, if_false]; exact he
    | none => exact List.mem_append_left _ he

/-- A non-marker line is accounted for by the step that processes it:
either it parses and its key enters the accumulators, or its error record
is appended. -/
lemma txtStep_records (st : TxtState) (line : String)
    (hns : jsStartsWith line "//" = false) :
    (∃ e, parseCardLine line = some e ∧
      lowerStr e.name ∈ accNames (txtStep st line)) ∨
    (parseCardLine line = none ∧
      ({ line := line, reason := "Could not parse format" } : ParseError) ∈
        (txtStep st line).errors) := by
  unfold txtStep
  rw [hns]
  simp only [Bool.false_eq_true, if_false]
  cases hp : parseCardLine line with
  | some e =>
    left
    refine ⟨e, rfl, ?_⟩
    cases hc : st.isCommander with
    | true =>
      simp only [if_pos]
      unfold accNames
      rw [List.map_append]
      exact List.mem_append_left _ (upsert_mem_key _ _ _)
    | false =>
      simp only [Bool.false_eq_true, if_false]
      unfold accNames
      rw [List.map_append]
      exact List.mem_append_right _ (upsert_mem_key _ _ _)
  | none =>
    right
    exact ⟨rfl, List.mem_append_right _ (List.mem_singleton.mpr rfl)⟩

/-- Keys survive the rest of the fold. -/
lemma foldl_keys_mono (lines : List String) (st : TxtState) {k : String}
    (hk : k ∈ accNames st) : k ∈ accNames (lines.foldl txtStep st) := by
  induction lines generalizing st with
  | nil => exact hk
  | cons l rest ih => exact ih _ (txtStep_keys_mono st l hk)

/-- Error records survive the rest of the fold. -/
lemma foldl_errors_mono (lines : List String) (st : TxtState) {er : ParseError}
    (he : er ∈ st.errors) : er ∈ (lines.foldl txtStep st).errors := by
  induction lines generalizing st with
  | nil => exact he
  | cons l rest ih => exact ih _ (txtStep_errors_mono st l he)

/-- The invariant survives the fold. -/
lemma foldl_inv (lines : List String) (st : TxtState) (hinv : accInv st) :
    accInv (lines.foldl txtStep st) := by
  induction lines generalizing st with
  | nil => exact hinv
  | cons l rest ih => exact ih _ (txtStep_inv st l hinv)

/-- Every processed non-marker line is accounted for by the whole fold. -/
lemma foldl_records (lines : List String) (st : TxtState) (line : String)
    (hmem : line ∈ lines) (hns : jsStartsWith line "//" = false) :
    (∃ e, parseCardLine line = some e ∧
      lowerStr e.name ∈ accNames (lines.foldl txtStep st)) ∨
    (parseCardLine line = none ∧
      ({ line := line, reason := "Could not parse format" } : ParseError) ∈
        (lines.foldl txtStep st).errors) := by
  induction lines generalizing st with
  | nil => cases hmem
  | cons l rest ih =>
    rcases List.mem_cons.mp hmem with heq | htail
    · subst heq
      rcases txtStep_records st line hns with ⟨e, hpe, hkey⟩ | ⟨hpe, herr⟩
      · exact Or.inl ⟨e, hpe, foldl_keys_mono rest _ hkey⟩
      · exact Or.inr ⟨hpe, foldl_errors_mono rest _ herr⟩
    · exact ih _ htail

end Mtg

/-- C8.  The line-dialect parser never fails on an individual line: every
processed line that is not a section marker either parses (its
case-insensitive name is among the output entries' names) or is recorded
in `errors` with its line text and reason, and parsing continues.  The
tabular parser fails only in the two announced ways: fewer than two
lines is the `CSV file is empty` result; a located header without a name
column gives the single descriptive error naming the missing column; when
the name column exists the error list is empty. -/
theorem Mtg.parser_per_line_error_accounting :
    (∀ (text : String), ∀ line ∈ Mtg.txtLines text,
       Mtg.jsStartsWith line "//" = false →
       ((∃ e, Mtg.parseCardLine line = some e ∧
           Mtg.lowerStr e.name ∈
             ((Mtg.parseTXT text).commander ++ (Mtg.parseTXT text).cards).map
               (fun x => Mtg.lowerStr x.name)) ∨
        (Mtg.parseCardLine line = none ∧
          ({ line := line, reason := "Could not parse format" } : Mtg.ParseError) ∈
            (Mtg.parseTXT text).errors))) ∧
    (∀ text : String, (Mtg.txtLines text).length < 2 →
       Mtg.parseCSV text =
         { commander := [], cards := [],
           errors := [{ line := "", reason := "CSV file is empty" }] }) ∧
    (∀ text : String, 2 ≤ (Mtg.txtLines text).length → Mtg.csvNameIdx text = none →
       Mtg.parseCSV text =
         { commander := [], cards := [],
           errors := [{ line := (Mtg.txtLines text).headD "",
                        reason := "Could not find \"Name\" column in CSV. Found: " ++
                          String.intercalate ", " (Mtg.csvHeaders text) }] }) ∧
    (∀ (text : String) (i : Nat), 2 ≤ (Mtg.txtLines text).length →
       Mtg.csvNameIdx text = some i → (Mtg.parseCSV text).errors = []) := by
  refine ⟨?_, ?_, ?_, ?_⟩
  · intro text line hmem hns
    have hrec := Mtg.foldl_records (Mtg.txtLines text)
      { isCommander := false, commanderAcc := [], mainAcc := [], errors := [] }
      line hmem hns
    have hinv := Mtg.foldl_inv (Mtg.txtLines text)
      { isCommander := false, commanderAcc := [], mainAcc := [], errors := [] }
      (fun p hp => by cases hp)
    have hnames :
        ((Mtg.parseTXT text).commander ++ (Mtg.parseTXT text).cards).map
            (fun x => Mtg.lowerStr x.name) =
          Mtg.accNames ((Mtg.txtLines text).foldl Mtg.txtStep
            { isCommander := false, commanderAcc := [], mainAcc := [], errors := [] }) := by
      unfold Mtg.parseTXT Mtg.accNames
      rw [← List.map_append, List.map_map]
      apply List.map_congr_left
      intro p hp
      simp only [Function.comp_apply]
      exact (hinv p hp).symm
    have herr : (Mtg.parseTXT text).errors =
        ((Mtg.txtLines text).foldl Mtg.txtStep
          { isCommander := false, commanderAcc := [], mainAcc := [], errors := [] }).errors := by
      unfold Mtg.parseTXT
      rfl
    rw [hnames, herr]
    exact hrec
  · intro text h
    unfold Mtg.parseCSV
    rw [if_pos h]
  · intro text h2 hn
    unfold Mtg.parseCSV
    rw [if_neg (Nat.not_lt.mpr h2), hn]
  · intro text i h2 hn
    unfold Mtg.parseCSV
    rw [if_neg (Nat.not_lt.mpr h2), hn]

/-- C8 witness: the accounting theorem applied to a concrete two-line
input whose first line parses and whose second line is recorded as an
error, hypotheses discharged by evaluation. -/
theorem Mtg.parser_per_line_error_accounting_witness :
    ("not a card line" ∈ Mtg.txtLines "2 Sol Ring\nnot a card line") ∧
    Mtg.jsStartsWith "not a card line" "//" = false ∧
    ((∃ e, Mtg.parseCardLine "not a card line" = some e ∧
        Mtg.lowerStr e.name ∈
          ((Mtg.parseTXT "2 Sol Ring\nnot a card line").commander ++
            (Mtg.parseTXT "2 Sol Ring\nnot a card line").cards).map
            (fun x => Mtg.lowerStr x.name)) ∨
     (Mtg.parseCardLine "not a card line" = none ∧
       ({ line := "not a card line", reason := "Could not parse format" } :
           Mtg.ParseError) ∈ (Mtg.parseTXT "2 Sol Ring\nnot a card line").errors)) :=
  ⟨by decide, by decide,
   Mtg.parser_per_line_error_accounting.1 "2 Sol Ring\nnot a card line"
     "not a card line" (by decide) (by decide)⟩
